import Mathlib

/-!
Verification of the PV-sizing numeric pipeline of `utils/pv_calc.py`
(`esolmet_explorer`): shallow embedding of `hsp_calc`, `power_calc` and
`modules` over rational-valued time series, together with proofs of the
documented properties (energy conservation under resampling, HSP bounds,
sizing coherence, determinism, degenerate-demand behaviour).

Modelling conventions:
* timestamps are calendar records (year, month, day, hour, minute) with the
  physical field bounds of real timestamps;
* a pandas series is a `List (TS × ℚ)`; `resample(...)` on a gap-free,
  ascending index is grouping of the present rows by the corresponding
  calendar bucket, in order of first occurrence;
* numpy half-even rounding (`.round`, `round(_, 2)`) is `roundHE`/`round2`
  on ℚ;
* the numpy float semantics of division by zero inside `modules`
  (inf/NaN propagation, no exception) is the extended type `FQ`;
* the external pvlib primitives (`get_total_irradiance` + solar position,
  `sapm_cell`, `pvwatts_dc`) are oracle parameters applied pointwise per
  timestamp, exactly as the source supplies them.
-/

namespace Esolmet

/-- A timestamp of the weather-table index: calendar fields with the bounds
real timestamps satisfy (`month` 1–12, `day` 1–31, `hour` 0–23, `minute`
0–59). -/
structure TS where
  year : Nat
  month : Fin 13
  day : Fin 32
  hour : Fin 24
  minute : Fin 60
deriving DecidableEq, Repr

/-- Bucket key of `resample("ME")`: the calendar month of a timestamp. -/
def monthKey (t : TS) : Nat := t.year * 13 + t.month.val

/-- Bucket key of `resample("D")`: the calendar day of a timestamp. -/
def dayKey (t : TS) : Nat := monthKey t * 32 + t.day.val

/-- Bucket key of `resample("h")`: the calendar hour of a timestamp. -/
def hourKey (t : TS) : Nat := dayKey t * 24 + t.hour.val

/-- Total chronological position of a timestamp (minute resolution). -/
def tsIdx (t : TS) : Nat := hourKey t * 60 + t.minute.val

/-- Chronological order on timestamps. -/
def tsLe (a b : TS) : Prop := tsIdx a ≤ tsIdx b

instance : DecidableRel tsLe := fun a b => inferInstanceAs (Decidable (tsIdx a ≤ tsIdx b))

/-- Per-timestamp measured fields of the weather table. -/
structure WRow where
  ghi : ℚ
  dni : ℚ
  dhi : ℚ
  tdb : ℚ
  ws : ℚ
deriving DecidableEq, Repr

/-- The raw weather table (`df`): time-indexed measured rows. -/
abbrev Weather := List (TS × WRow)

/-- A time-indexed rational series. -/
abbrev Series := List (TS × ℚ)

/-- Helper of `firstDedup`: drop elements already in `seen`, keep the first
occurrence of each new element. -/
def firstDedupAux {α : Type} [DecidableEq α] (seen : List α) : List α → List α
  | [] => []
  | a :: l => if a ∈ seen then firstDedupAux seen l else a :: firstDedupAux (a :: seen) l

/-- The distinct elements of a list in order of first occurrence: the bucket
keys a pandas group-by produces on an ascending index. -/
def firstDedup {α : Type} [DecidableEq α] (l : List α) : List α :=
  firstDedupAux [] l

/-- Group keys of a keyed series, in order of first occurrence. -/
def gkeys {α κ : Type} [DecidableEq κ] (f : α → κ) (s : List (α × ℚ)) : List κ :=
  firstDedup (s.map (fun p => f p.1))

/-- The values of a keyed series falling in bucket `k`. -/
def gvals {α κ : Type} [DecidableEq κ] (f : α → κ) (s : List (α × ℚ)) (k : κ) : List ℚ :=
  (s.filter (fun p => f p.1 = k)).map (fun p => p.2)

/-- Arithmetic mean of a list of rationals. -/
def lmean (l : List ℚ) : ℚ := l.sum / (l.length : ℚ)

/-- Per-bucket sums: `resample(...).sum()`. -/
def regroupSum {α κ : Type} [DecidableEq κ] (f : α → κ) (s : List (α × ℚ)) :
    List (κ × ℚ) :=
  (gkeys f s).map (fun k => (k, (gvals f s k).sum))

/-- Per-bucket means: `resample(...).mean()`. -/
def regroupMean {α κ : Type} [DecidableEq κ] (f : α → κ) (s : List (α × ℚ)) :
    List (κ × ℚ) :=
  (gkeys f s).map (fun k => (k, lmean (gvals f s k)))

/-- Round to nearest integer, ties to even: the rounding of numpy/pandas
`.round()` used throughout `pv_calc.py`. -/
def roundHE (q : ℚ) : ℤ :=
  if q - ⌊q⌋ < 1/2 then ⌊q⌋
  else if 1/2 < q - ⌊q⌋ then ⌊q⌋ + 1
  else if ⌊q⌋ % 2 = 0 then ⌊q⌋ else ⌊q⌋ + 1

/-- Rounding `round(x, 2)` of numpy/pandas on ℚ. -/
def round2 (q : ℚ) : ℚ := (roundHE (q * 100) : ℚ) / 100

/-- IEEE-754-style extended value (finite rational, ±inf, NaN), capturing the
numpy float behaviour of the divisions in `modules` (pv_calc.py 175–177):
division by zero yields ±inf or NaN with no exception. -/
inductive FQ where
  | fin : ℚ → FQ
  | inf : FQ
  | neginf : FQ
  | nan : FQ
deriving DecidableEq, Repr

/-- IEEE multiplication on extended values (`inf * 0 = NaN`). -/
def FQ.mul : FQ → FQ → FQ
  | nan, _ => nan
  | _, nan => nan
  | fin a, fin b => fin (a * b)
  | fin a, inf => if a = 0 then nan else if 0 < a then inf else neginf
  | fin a, neginf => if a = 0 then nan else if 0 < a then neginf else inf
  | inf, fin b => if b = 0 then nan else if 0 < b then inf else neginf
  | neginf, fin b => if b = 0 then nan else if 0 < b then neginf else inf
  | inf, inf => inf
  | inf, neginf => neginf
  | neginf, inf => neginf
  | neginf, neginf => inf

/-- IEEE division on extended values (`x/0 = ±inf` for `x ≠ 0`, `0/0 = NaN`,
divisor zero taken as +0, as produced by the sums in `modules`). -/
def FQ.div : FQ → FQ → FQ
  | nan, _ => nan
  | _, nan => nan
  | fin a, fin b =>
      if b = 0 then (if a = 0 then nan else if 0 < a then inf else neginf)
      else fin (a / b)
  | fin _, inf => fin 0
  | fin _, neginf => fin 0
  | inf, fin b => if 0 ≤ b then inf else neginf
  | neginf, fin b => if 0 ≤ b then neginf else inf
  | inf, inf => nan
  | inf, neginf => nan
  | neginf, inf => nan
  | neginf, neginf => nan

/-- numpy `.round()` on an extended value (`round(inf) = inf`,
`round(NaN) = NaN`). -/
def FQ.roundI : FQ → FQ
  | fin a => fin (roundHE a)
  | x => x

/-- numpy `.round(2)` on an extended value. -/
def FQ.roundTwo : FQ → FQ
  | fin a => fin (round2 a)
  | x => x

/-- Finiteness predicate on extended values. -/
def FQ.finite : FQ → Bool
  | fin _ => true
  | _ => false

/-- Result record of `modules` (pv_calc.py 160–179), in source return order:
`num_pv, pvno_energy_year, percen, energy_year, energy_monthly`. -/
structure SizingResult where
  num_pv : FQ
  pvno_energy_year : FQ
  percen : FQ
  energy_year : ℚ
  energy_monthly : List (Nat × ℚ)
deriving DecidableEq, Repr

/-- Hourly energy `ac_power.resample("h").mean()/1000` (pv_calc.py line 172). -/
def acPowerHour (ac_power : Series) : List (Nat × ℚ) :=
  (regroupMean hourKey ac_power).map (fun p => (p.1, p.2 / 1000))

/-- The function `modules` of pv_calc.py lines 160–179: hourly-mean energy in kWh,
monthly and annual sums, module count by half-even rounding of
`goal_year / energy_year`, covered energy rounded to 2 decimals, coverage
percentage from the unrounded product. -/
def modules (ac_power : Series) (goal_year : ℚ) : SizingResult :=
  let ac_power_hour := acPowerHour ac_power
  let energy_monthly := regroupSum (fun hk => hk / 24 / 32) ac_power_hour
  let energy_year := (ac_power_hour.map (fun p => p.2)).sum
  let num_pv := FQ.roundI (FQ.div (FQ.fin goal_year) (FQ.fin energy_year))
  let pvno_energy_year := FQ.roundTwo (FQ.mul num_pv (FQ.fin energy_year))
  let percen := FQ.mul (FQ.div (FQ.mul num_pv (FQ.fin energy_year)) (FQ.fin goal_year)) (FQ.fin 100)
  ⟨num_pv, pvno_energy_year, percen, energy_year, energy_monthly⟩

/-- Insertion into a Python dict (insertion-ordered): an existing key is
overwritten in place, a new key is appended.  Models
`hsp_dict[f"{tilt}°"] = ...` at pv_calc.py line 75. -/
def dictUpsert {α : Type} : List (ℚ × α) → ℚ → α → List (ℚ × α)
  | [], k, v => [(k, v)]
  | (k', v') :: d, k, v =>
      if k' = k then (k, v) :: d else (k', v') :: dictUpsert d k v

/-- The `poa_global` series `get_total_irradiance` returns for one tilt:
the external pvlib oracle `getPoa` (solar position + transposition) applied
pointwise to each timestamp and measured row of the weather table. -/
def poaSeries (getPoa : ℚ → ℚ → ℚ → ℚ → TS → WRow → ℚ) (w : Weather)
    (lat lon tilt az : ℚ) : Series :=
  w.map (fun p => (p.1, getPoa lat lon tilt az p.1 p.2))

/-- Hourly means `irradiance.poa_global.resample("h").mean()` (pv_calc.py line 71). -/
def ghiHour (s : Series) : List (Nat × ℚ) := regroupMean hourKey s

/-- Daily HSP `hsp_d = ghi_hour.resample("D").sum()/1000` (pv_calc.py line 72). -/
def hspDay (s : Series) : List (Nat × ℚ) :=
  (regroupSum (fun hk => hk / 24) (ghiHour s)).map (fun p => (p.1, p.2 / 1000))

/-- Monthly means `hsp_avg_m = hsp_d.resample("ME").mean()` rounded to 2 decimals
(pv_calc.py lines 73 and 75). -/
def hspMonth (s : Series) : List (Nat × ℚ) :=
  (regroupMean (fun dk => dk / 32) (hspDay s)).map (fun p => (p.1, round2 p.2))

/-- Month-bucket keys of the weather index, as produced by the
hourly → daily → monthly resampling chain. -/
def monthCols (w : Weather) : List Nat :=
  firstDedup
    ((firstDedup ((firstDedup (w.map (fun p => hourKey p.1))).map (fun hk => hk / 24))).map
      (fun dk => dk / 32))

/-- English month name, as `strftime('%B')` at pv_calc.py line 78. -/
def monthName : Nat → String
  | 1 => "January"
  | 2 => "February"
  | 3 => "March"
  | 4 => "April"
  | 5 => "May"
  | 6 => "June"
  | 7 => "July"
  | 8 => "August"
  | 9 => "September"
  | 10 => "October"
  | 11 => "November"
  | 12 => "December"
  | _ => ""

/-- The HSP table returned by `hsp_calc`: tilt-keyed rows of monthly cells
plus the `Average` cell, and the month columns with their display names. -/
structure HSPTable where
  cols : List Nat
  colNames : List String
  rows : List (ℚ × (List ℚ × ℚ))
deriving DecidableEq, Repr

/-- The monthly HSP series of one candidate tilt (the body of the loop at
pv_calc.py lines 61–75). -/
def tiltRow (getPoa : ℚ → ℚ → ℚ → ℚ → TS → WRow → ℚ) (w : Weather)
    (lat lon az t : ℚ) : List (Nat × ℚ) :=
  hspMonth (poaSeries getPoa w lat lon t az)

/-- The function `hsp_calc` of pv_calc.py lines 42–82: for each candidate tilt in
`[0, t, t-15, t+15, 90]` compute the monthly mean daily HSP series, store it
in an insertion-ordered dict keyed by the tilt, transpose into a table whose
columns are the months present, and append the row-wise `Average` column
rounded to 2 decimals. -/
def hsp_calc (getPoa : ℚ → ℚ → ℚ → ℚ → TS → WRow → ℚ) (w : Weather)
    (lat lon surface_tilt surface_azimuth : ℚ) : HSPTable :=
  let tilts : List ℚ := [0, surface_tilt, surface_tilt - 15, surface_tilt + 15, 90]
  let hsp_dict : List (ℚ × List (Nat × ℚ)) :=
    tilts.foldl
      (fun d t => dictUpsert d t (tiltRow getPoa w lat lon surface_azimuth t)) []
  let cols := monthCols w
  { cols := cols
    colNames := cols.map (fun mk => monthName (mk % 13))
    rows := hsp_dict.map (fun r =>
      let cells := r.2.map (fun p => p.2)
      (r.1, (cells, round2 (lmean cells)))) }

/-- One row of the POA irradiance table `get_total_irradiance` returns. -/
structure IrrRow where
  poa_global : ℚ
  poa_direct : ℚ
  poa_diffuse : ℚ
deriving DecidableEq, Repr

/-- The combined POA + power table returned by `power_calc`: the timestamp
index and the labelled columns. -/
structure PoaPowerTable where
  index : List TS
  cols : List (String × List ℚ)
deriving DecidableEq, Repr

/-- Cell temperature `module_temp = sapm_cell(poa_global, df.tdb, df.ws, **temp_params)`
(pv_calc.py lines 146–151): the external SAPM thermal oracle applied
pointwise to the aligned irradiance and weather rows. -/
def moduleTemp {TP : Type} (sapmCell : TP → ℚ → ℚ → ℚ → ℚ) (df : Weather)
    (irr : List (TS × IrrRow)) (assembly : TP) : Series :=
  (irr.zip df).map (fun q => (q.1.1, sapmCell assembly q.1.2.poa_global q.2.2.tdb q.2.2.ws))

/-- DC power `dc_power = pvwatts_dc(poa_global, module_temp, pdc0, gamma_pdc)`
(pv_calc.py line 152): the external PVWatts oracle applied pointwise. -/
def dcSeries {TP : Type} (sapmCell : TP → ℚ → ℚ → ℚ → ℚ)
    (pvwattsDc : ℚ → ℚ → ℚ → ℚ → ℚ) (df : Weather) (irr : List (TS × IrrRow))
    (assembly : TP) (pdc0 gamma_pdc : ℚ) : Series :=
  (irr.zip df).map (fun q =>
    (q.1.1,
      pvwattsDc q.1.2.poa_global (sapmCell assembly q.1.2.poa_global q.2.2.tdb q.2.2.ws)
        pdc0 gamma_pdc))

/-- The function `power_calc` of pv_calc.py lines 125–157: cell temperature and DC power
via the external oracles, `ac_power = dc_power * inv_eff`, and the combined
table of the three POA components plus `ac_power` on the irradiance index. -/
def power_calc {TP : Type} (sapmCell : TP → ℚ → ℚ → ℚ → ℚ)
    (pvwattsDc : ℚ → ℚ → ℚ → ℚ → ℚ) (df : Weather) (irr : List (TS × IrrRow))
    (assembly : TP) (pdc0 gamma_pdc inv_eff : ℚ) : Series × PoaPowerTable :=
  let dc_power := dcSeries sapmCell pvwattsDc df irr assembly pdc0 gamma_pdc
  let ac_power := dc_power.map (fun p => (p.1, p.2 * inv_eff))
  let df_poa_power : PoaPowerTable :=
    { index := irr.map (fun p => p.1)
      cols := [("poa_global", irr.map (fun p => p.2.poa_global)),
               ("poa_direct", irr.map (fun p => p.2.poa_direct)),
               ("poa_diffuse", irr.map (fun p => p.2.poa_diffuse)),
               ("ac_power", ac_power.map (fun p => p.2))] }
  (ac_power, df_poa_power)

/-- Spec-side formulation (§4.2 of the spec) of the mean of the POA values
falling in hour bucket `h`. -/
def hourMeanSpec (s : Series) (h : Nat) : ℚ :=
  lmean ((s.filter (fun p => hourKey p.1 = h)).map (fun p => p.2))

/-- Spec-side: the calendar days present in the data that fall in month `m`,
in order of first occurrence. -/
def daysOfMonth (s : Series) (m : Nat) : List Nat :=
  firstDedup ((s.filter (fun p => monthKey p.1 = m)).map (fun p => dayKey p.1))

/-- Spec-side: the hour buckets present in the data that fall on day `d`. -/
def hoursOfDay (s : Series) (d : Nat) : List Nat :=
  firstDedup ((s.filter (fun p => dayKey p.1 = d)).map (fun p => hourKey p.1))

/-- Spec-side daily peak-sun-hours: sum the hourly means of the day and
divide by 1000. -/
def dayHSPSpec (s : Series) (d : Nat) : ℚ :=
  ((hoursOfDay s d).map (hourMeanSpec s)).sum / 1000

/-- Spec-side HSP cell: the mean of the daily peak-sun-hours over the days
of month `m`, rounded to 2 decimals. -/
def cellSpec (s : Series) (m : Nat) : ℚ :=
  round2 (lmean ((daysOfMonth s m).map (dayHSPSpec s)))

/-- A concrete timestamp for witnesses and counterexamples. -/
def ts0 : TS := ⟨2024, 1, 10, 12, 0⟩

/-- A concrete weather table with one row. -/
def w0 : Weather := [(ts0, ⟨500, 600, 100, 25, 2⟩)]

/-- A constant-output POA oracle for counterexamples. -/
def constPoa (c : ℚ) : ℚ → ℚ → ℚ → ℚ → TS → WRow → ℚ :=
  fun _ _ _ _ _ _ => c

/-- A concrete irradiance table for the C9 witness. -/
def irr0 : List (TS × IrrRow) := [(ts0, ⟨800, 600, 200⟩)]

/-- A concrete SAPM cell-temperature oracle. -/
def sapm0 : Unit → ℚ → ℚ → ℚ → ℚ := fun _ poa tdb ws => tdb + poa / 32 - ws

/-- A concrete PVWatts DC oracle. -/
def pvw0 : ℚ → ℚ → ℚ → ℚ → ℚ :=
  fun poa temp pdc0 gamma => pdc0 * (poa / 1000) * (1 + gamma * (temp - 25))

/-! ### Lemmas: first-occurrence deduplication -/

theorem firstDedupAux_sublist {α : Type} [DecidableEq α] (seen l : List α) :
    List.Sublist (firstDedupAux seen l) l := by
  induction l generalizing seen with
  | nil => exact List.Sublist.refl _
  | cons a l ih =>
      by_cases h : a ∈ seen
      · rw [firstDedupAux, if_pos h]
        exact (ih seen).cons a
      · rw [firstDedupAux, if_neg h]
        exact (ih (a :: seen)).cons₂ a

theorem mem_firstDedupAux {α : Type} [DecidableEq α] {x : α} (seen l : List α) :
    x ∈ firstDedupAux seen l ↔ x ∈ l ∧ x ∉ seen := by
  induction l generalizing seen with
  | nil => simp [firstDedupAux]
  | cons a l ih =>
      by_cases h : a ∈ seen
      · rw [firstDedupAux, if_pos h, ih]
        constructor
        · rintro ⟨hx, hs⟩
          exact ⟨List.mem_cons_of_mem _ hx, hs⟩
        · rintro ⟨hx, hs⟩
          rcases List.mem_cons.mp hx with rfl | hx
          · exact absurd h hs
          · exact ⟨hx, hs⟩
      · rw [firstDedupAux, if_neg h]
        simp only [List.mem_cons, ih, List.mem_cons, not_or]
        constructor
        · rintro (rfl | ⟨hx, hne, hs⟩)
          · exact ⟨Or.inl rfl, h⟩
          · exact ⟨Or.inr hx, hs⟩
        · rintro ⟨rfl | hx, hs⟩
          · exact Or.inl rfl
          · by_cases hxa : x = a
            · exact Or.inl hxa
            · exact Or.inr ⟨hx, hxa, hs⟩

theorem nodup_firstDedupAux {α : Type} [DecidableEq α] (seen l : List α) :
    (firstDedupAux seen l).Nodup := by
  induction l generalizing seen with
  | nil => simp [firstDedupAux]
  | cons a l ih =>
      by_cases h : a ∈ seen
      · rw [firstDedupAux, if_pos h]
        exact ih seen
      · rw [firstDedupAux, if_neg h]
        refine List.nodup_cons.mpr ⟨?_, ih (a :: seen)⟩
        intro hmem
        exact ((mem_firstDedupAux _ _).mp hmem).2 (List.mem_cons_self a seen)

theorem firstDedupAux_congr {α : Type} [DecidableEq α] {s1 s2 : List α} (l : List α)
    (h : ∀ x, x ∈ s1 ↔ x ∈ s2) : firstDedupAux s1 l = firstDedupAux s2 l := by
  induction l generalizing s1 s2 with
  | nil => rfl
  | cons a l ih =>
      by_cases ha : a ∈ s1
      · rw [firstDedupAux, if_pos ha, firstDedupAux, if_pos ((h a).mp ha)]
        exact ih h
      · rw [firstDedupAux, if_neg ha, firstDedupAux, if_neg (fun hx => ha ((h a).mpr hx))]
        congr 1
        refine ih (fun x => ?_)
        simp only [List.mem_cons, h x]

theorem firstDedupAux_seen_not_mem {α : Type} [DecidableEq α] {a : α} (seen m : List α)
    (h : a ∉ m) : firstDedupAux (a :: seen) m = firstDedupAux seen m := by
  induction m generalizing seen with
  | nil => rfl
  | cons b m ih =>
      have hab : b ≠ a := fun e => h (e ▸ List.mem_cons_self b m)
      have hm : a ∉ m := fun hm => h (List.mem_cons_of_mem _ hm)
      by_cases hbs : b ∈ seen
      · rw [firstDedupAux, if_pos (List.mem_cons_of_mem _ hbs), firstDedupAux, if_pos hbs]
        exact ih seen hm
      · have hb2 : b ∉ a :: seen := by
          simp only [List.mem_cons, not_or]
          exact ⟨hab, hbs⟩
        rw [firstDedupAux, if_neg hb2, firstDedupAux, if_neg hbs]
        congr 1
        calc firstDedupAux (b :: a :: seen) m
            = firstDedupAux (a :: b :: seen) m := by
              refine firstDedupAux_congr m (fun x => ?_)
              simp only [List.mem_cons]
              tauto
          _ = firstDedupAux (b :: seen) m := ih (b :: seen) hm

theorem firstDedupAux_filter {α : Type} [DecidableEq α] (q : α → Bool) (seen l : List α) :
    (firstDedupAux seen l).filter q = firstDedupAux seen (l.filter q) := by
  induction l generalizing seen with
  | nil => rfl
  | cons a l ih =>
      by_cases ha : a ∈ seen
      · rw [firstDedupAux, if_pos ha]
        by_cases hq : q a
        · rw [List.filter_cons_of_pos hq, firstDedupAux, if_pos ha]
          exact ih seen
        · rw [List.filter_cons_of_neg hq]
          exact ih seen
      · rw [firstDedupAux, if_neg ha]
        by_cases hq : q a
        · rw [List.filter_cons_of_pos hq, List.filter_cons_of_pos hq, firstDedupAux, if_neg ha]
          congr 1
          exact ih (a :: seen)
        · rw [List.filter_cons_of_neg hq, List.filter_cons_of_neg hq]
          rw [ih (a :: seen)]
          exact firstDedupAux_seen_not_mem seen _ (fun hmem => hq (List.of_mem_filter hmem))

theorem mem_firstDedup {α : Type} [DecidableEq α] {x : α} (l : List α) :
    x ∈ firstDedup l ↔ x ∈ l := by
  rw [firstDedup, mem_firstDedupAux]
  simp

theorem nodup_firstDedup {α : Type} [DecidableEq α] (l : List α) :
    (firstDedup l).Nodup := nodup_firstDedupAux [] l

theorem firstDedup_sublist {α : Type} [DecidableEq α] (l : List α) :
    List.Sublist (firstDedup l) l := firstDedupAux_sublist [] l

theorem firstDedup_filter {α : Type} [DecidableEq α] (q : α → Bool) (l : List α) :
    (firstDedup l).filter q = firstDedup (l.filter q) := firstDedupAux_filter q [] l

/-! ### Lemmas: grouping -/

theorem mem_gkeys {α κ : Type} [DecidableEq κ] (f : α → κ) (s : List (α × ℚ)) (k : κ) :
    k ∈ gkeys f s ↔ ∃ p ∈ s, f p.1 = k := by
  rw [gkeys, mem_firstDedup]
  simp [List.mem_map]

theorem nodup_gkeys {α κ : Type} [DecidableEq κ] (f : α → κ) (s : List (α × ℚ)) :
    (gkeys f s).Nodup := nodup_firstDedup _

theorem gvals_ne_nil {α κ : Type} [DecidableEq κ] {f : α → κ} {s : List (α × ℚ)} {k : κ}
    (h : k ∈ gkeys f s) : gvals f s k ≠ [] := by
  rcases (mem_gkeys f s k).mp h with ⟨p, hp, hk⟩
  have hmem : p.2 ∈ gvals f s k := by
    refine List.mem_map_of_mem _ (List.mem_filter.mpr ⟨hp, ?_⟩)
    simpa using hk
  exact List.ne_nil_of_mem hmem

theorem sum_filter_add_sum_filter_not {α : Type} (p : α → Bool) (g : α → ℚ) (l : List α) :
    ((l.filter p).map g).sum + ((l.filter (fun a => !(p a))).map g).sum = (l.map g).sum := by
  induction l with
  | nil => simp
  | cons a l ih =>
      by_cases h : p a
      · rw [List.filter_cons_of_pos h, List.filter_cons_of_neg (by simp [h])]
        simp only [List.map_cons, List.sum_cons]
        rw [add_assoc, ih]
      · rw [List.filter_cons_of_neg (by simpa using h), List.filter_cons_of_pos (by simpa using h)]
        simp only [List.map_cons, List.sum_cons]
        rw [← add_assoc, add_comm (((l.filter p).map g).sum), add_assoc, ih]

theorem sum_over_keys {α κ : Type} [DecidableEq κ] (f : α → κ) (keys : List κ) :
    ∀ s : List (α × ℚ), keys.Nodup → (∀ p ∈ s, f p.1 ∈ keys) →
      ((keys.map (fun k => (gvals f s k).sum)).sum = (s.map (fun p => p.2)).sum) := by
  induction keys with
  | nil =>
      intro s _ hcov
      have hs : s = [] := List.eq_nil_iff_forall_not_mem.mpr
        (fun p hp => absurd (hcov p hp) (List.not_mem_nil _))
      subst hs
      simp
  | cons k ks ih =>
      intro s hnd hcov
      have hsplit := sum_filter_add_sum_filter_not
        (fun p : α × ℚ => decide (f p.1 = k)) (fun p => p.2) s
      have hks : ∀ k' ∈ ks,
          gvals f s k' = gvals f (s.filter (fun p => !(decide (f p.1 = k)))) k' := by
        intro k' hk'
        have hne : k' ≠ k := by
          rintro rfl
          exact (List.nodup_cons.mp hnd).1 hk'
        rw [gvals, gvals, List.filter_filter]
        congr 1
        refine List.filter_congr (fun p _ => ?_)
        by_cases hp : f p.1 = k'
        · have hpk : f p.1 ≠ k := by
            rw [hp]
            exact hne
          simp [hp, hpk]
          exact hne
        · simp [hp]
      rw [List.map_cons, List.sum_cons]
      have hmap : ks.map (fun k' => (gvals f s k').sum)
          = ks.map (fun k' => (gvals f (s.filter (fun p => !(decide (f p.1 = k)))) k').sum) :=
        List.map_congr_left (fun k' hk' => by rw [hks k' hk'])
      rw [hmap, ih _ (List.nodup_cons.mp hnd).2 ?_]
      · rw [← hsplit]
        rfl
      · intro p hp
        have hp1 := List.mem_filter.mp hp
        have hpk : f p.1 ≠ k := by
          intro e
          rw [e] at hp1
          simp at hp1
        rcases List.mem_cons.mp (hcov p hp1.1) with e | hmem
        · exact absurd e hpk
        · exact hmem

theorem sum_regroupSum {α κ : Type} [DecidableEq κ] (f : α → κ) (s : List (α × ℚ)) :
    ((regroupSum f s).map (fun p => p.2)).sum = (s.map (fun p => p.2)).sum := by
  rw [regroupSum, List.map_map]
  exact sum_over_keys f (gkeys f s) s (nodup_gkeys f s)
    (fun p hp => (mem_gkeys f s _).mpr ⟨p, hp, rfl⟩)

/-! ### Lemmas: rounding and means -/

theorem abs_roundHE_sub_le (q : ℚ) : |(roundHE q : ℚ) - q| ≤ 1/2 := by
  have h0 : (⌊q⌋ : ℚ) ≤ q := Int.floor_le q
  have h1 : q < ⌊q⌋ + 1 := Int.lt_floor_add_one q
  rw [roundHE]
  by_cases hlt : q - ⌊q⌋ < 1/2
  · rw [if_pos hlt, abs_le]
    constructor <;> linarith
  · rw [if_neg hlt]
    by_cases hgt : 1/2 < q - ⌊q⌋
    · rw [if_pos hgt]
      push_cast
      rw [abs_le]
      constructor <;> linarith
    · rw [if_neg hgt]
      by_cases he : ⌊q⌋ % 2 = 0
      · rw [if_pos he, abs_le]
        constructor <;> linarith
      · rw [if_neg he]
        push_cast
        rw [abs_le]
        constructor <;> linarith

theorem roundHE_le_of_le {q : ℚ} {n : ℤ} (h : q ≤ n) : roundHE q ≤ n := by
  have hb := abs_roundHE_sub_le q
  rw [abs_le] at hb
  by_contra hc
  push_neg at hc
  have h1 : ((n + 1 : ℤ) : ℚ) ≤ (roundHE q : ℚ) := by
    exact_mod_cast Int.add_one_le_iff.mpr hc
  push_cast at h1
  linarith [hb.2]

theorem le_roundHE_of_le {q : ℚ} {n : ℤ} (h : (n : ℚ) ≤ q) : n ≤ roundHE q := by
  have hb := abs_roundHE_sub_le q
  rw [abs_le] at hb
  by_contra hc
  push_neg at hc
  have h1 : ((roundHE q + 1 : ℤ) : ℚ) ≤ (n : ℚ) := by
    exact_mod_cast Int.add_one_le_iff.mpr hc
  push_cast at h1
  linarith [hb.1]

theorem round2_nonneg {q : ℚ} (h : 0 ≤ q) : 0 ≤ round2 q := by
  rw [round2]
  have h1 : ((0 : ℤ) : ℚ) ≤ q * 100 := by
    push_cast
    linarith
  have h2 : (0 : ℤ) ≤ roundHE (q * 100) := le_roundHE_of_le h1
  have h3 : (0 : ℚ) ≤ (roundHE (q * 100) : ℚ) := by exact_mod_cast h2
  linarith

theorem round2_le_of_le {q : ℚ} {n : ℤ} (h : q ≤ n) : round2 q ≤ n := by
  rw [round2]
  have h1 : q * 100 ≤ ((n * 100 : ℤ) : ℚ) := by
    push_cast
    linarith
  have h2 : roundHE (q * 100) ≤ n * 100 := roundHE_le_of_le h1
  have h3 : (roundHE (q * 100) : ℚ) ≤ ((n * 100 : ℤ) : ℚ) := by exact_mod_cast h2
  push_cast at h3
  linarith

theorem lmean_le {l : List ℚ} {b : ℚ} (hne : l ≠ []) (hb : ∀ v ∈ l, v ≤ b) :
    lmean l ≤ b := by
  rw [lmean]
  have hlen : 0 < (l.length : ℚ) := by
    have := List.length_pos.mpr hne
    exact_mod_cast this
  rw [div_le_iff₀ hlen]
  calc l.sum ≤ l.length • b := List.sum_le_card_nsmul l b hb
    _ = b * l.length := by
        rw [nsmul_eq_mul]
        ring

theorem le_lmean {l : List ℚ} {a : ℚ} (hne : l ≠ []) (ha : ∀ v ∈ l, a ≤ v) :
    a ≤ lmean l := by
  rw [lmean]
  have hlen : 0 < (l.length : ℚ) := by
    have := List.length_pos.mpr hne
    exact_mod_cast this
  rw [le_div_iff₀ hlen]
  calc a * l.length = l.length • a := by
        rw [nsmul_eq_mul]
        ring
    _ ≤ l.sum := List.card_nsmul_le_sum l a ha

theorem length_le_of_nodup_div_eq {l : List Nat} {n d : Nat} (hnd : l.Nodup)
    (hall : ∀ x ∈ l, x / n = d) (hn : 0 < n) : l.length ≤ n := by
  have hsub : l.toFinset ⊆ Finset.Ico (n * d) (n * d + n) := by
    intro x hx
    have hxl : x ∈ l := List.mem_toFinset.mp hx
    have hdiv := hall x hxl
    have hge : n * d ≤ x := by
      have := Nat.div_mul_le_self x n
      rw [hdiv] at this
      linarith [this]
    have hlt : x < n * d + n := by
      have h2 : x / n < d + 1 := by
        rw [hdiv]
        exact Nat.lt_succ_self d
      have := (Nat.div_lt_iff_lt_mul hn).mp h2
      calc x < (d + 1) * n := this
        _ = n * d + n := by ring
    exact Finset.mem_Ico.mpr ⟨hge, hlt⟩
  calc l.length = l.toFinset.card := (List.toFinset_card_of_nodup hnd).symm
    _ ≤ (Finset.Ico (n * d) (n * d + n)).card := Finset.card_le_card hsub
    _ = n := by
        rw [Nat.card_Ico]
        omega

theorem hourKey_div (t : TS) : hourKey t / 24 = dayKey t := by
  rw [hourKey]
  have h := t.hour.isLt
  omega

theorem dayKey_div (t : TS) : dayKey t / 32 = monthKey t := by
  rw [dayKey]
  have h := t.day.isLt
  omega

theorem tsIdx_div (t : TS) : tsIdx t / 60 = hourKey t := by
  rw [tsIdx]
  have h := t.minute.isLt
  omega

theorem firstDedupAux_cons_seen {α : Type} [DecidableEq α] (a : α) (seen l : List α) :
    firstDedupAux (a :: seen) l = firstDedupAux seen (l.filter (fun b => b ≠ a)) := by
  induction l generalizing seen with
  | nil => rfl
  | cons b l ih =>
      by_cases hba : b = a
      · subst hba
        rw [firstDedupAux, if_pos (List.mem_cons_self _ _), List.filter_cons_of_neg (by simp)]
        exact ih seen
      · by_cases hbs : b ∈ seen
        · rw [firstDedupAux, if_pos (List.mem_cons_of_mem _ hbs),
            List.filter_cons_of_pos (by simpa using hba), firstDedupAux, if_pos hbs]
          exact ih seen
        · have hb2 : b ∉ a :: seen := by
            simp only [List.mem_cons, not_or]
            exact ⟨hba, hbs⟩
          rw [firstDedupAux, if_neg hb2, List.filter_cons_of_pos (by simpa using hba),
            firstDedupAux, if_neg hbs]
          congr 1
          calc firstDedupAux (b :: a :: seen) l
              = firstDedupAux (a :: b :: seen) l := by
                refine firstDedupAux_congr l (fun x => ?_)
                simp only [List.mem_cons]
                tauto
            _ = firstDedupAux (b :: seen) (l.filter (fun c => c ≠ a)) := ih (b :: seen)

theorem firstDedup_cons {α : Type} [DecidableEq α] (a : α) (l : List α) :
    firstDedup (a :: l) = a :: firstDedup (l.filter (fun b => b ≠ a)) := by
  rw [firstDedup, firstDedupAux, if_neg (List.not_mem_nil a)]
  congr 1
  exact firstDedupAux_cons_seen a [] l

theorem firstDedup_map_firstDedup {α β : Type} [DecidableEq α] [DecidableEq β] (g : α → β) :
    ∀ l : List α, firstDedup ((firstDedup l).map g) = firstDedup (l.map g)
  | [] => rfl
  | a :: l => by
      rw [firstDedup_cons, List.map_cons, firstDedup_cons, List.map_cons, firstDedup_cons]
      congr 1
      rw [List.filter_map, firstDedup_filter,
        firstDedup_map_firstDedup g ((l.filter (fun b => b ≠ a)).filter
          ((fun b => b ≠ g a) ∘ g)),
        List.filter_map, List.filter_filter]
      congr 2
      refine List.filter_congr (fun x _ => ?_)
      by_cases hx : g x = g a
      · simp [Function.comp, hx]
      · have hxa : x ≠ a := fun e => hx (by rw [e])
        simp [Function.comp, hx, hxa]
termination_by l => l.length
decreasing_by
  simp only [List.length_cons]
  exact Nat.lt_succ_of_le (le_trans (List.length_filter_le _ _) (List.length_filter_le _ _))

theorem map_key_eq {w : Weather} {s : Series}
    (hs : s.map (fun p => p.1) = w.map (fun p => p.1)) (f : TS → Nat) :
    s.map (fun p => f p.1) = w.map (fun p => f p.1) := by
  have h1 : s.map (fun p => f p.1) = (s.map (fun p => p.1)).map f := by
    rw [List.map_map]
    rfl
  have h2 : w.map (fun p => f p.1) = (w.map (fun p => p.1)).map f := by
    rw [List.map_map]
    rfl
  rw [h1, h2, hs]

theorem poaSeries_map_fst (getPoa : ℚ → ℚ → ℚ → ℚ → TS → WRow → ℚ) (w : Weather)
    (lat lon t az : ℚ) :
    (poaSeries getPoa w lat lon t az).map (fun p => p.1) = w.map (fun p => p.1) := by
  rw [poaSeries, List.map_map]
  rfl

theorem ghiHour_keys (s : Series) :
    (ghiHour s).map (fun p => p.1) = gkeys hourKey s := by
  rw [ghiHour, regroupMean, List.map_map]
  exact (List.map_congr_left (fun x _ => rfl)).trans (List.map_id _)

theorem hspDay_eq_map (s : Series) :
    hspDay s = (gkeys (fun hk => hk / 24) (ghiHour s)).map
      (fun d => (d, (gvals (fun hk => hk / 24) (ghiHour s) d).sum / 1000)) := by
  rw [hspDay, regroupSum, List.map_map]
  rfl

theorem hspDay_keys (s : Series) :
    (hspDay s).map (fun p => p.1) = gkeys (fun hk => hk / 24) (ghiHour s) := by
  rw [hspDay_eq_map, List.map_map]
  exact (List.map_congr_left (fun x _ => rfl)).trans (List.map_id _)

theorem gkeys_day_eq (s : Series) :
    gkeys (fun hk => hk / 24) (ghiHour s) = firstDedup (s.map (fun p => dayKey p.1)) := by
  have h1 : (ghiHour s).map (fun p => p.1 / 24) = (gkeys hourKey s).map (fun k => k / 24) := by
    rw [← ghiHour_keys, List.map_map]
    rfl
  rw [gkeys, h1, gkeys, firstDedup_map_firstDedup, List.map_map]
  congr 1
  refine List.map_congr_left (fun p _ => ?_)
  simp only [Function.comp_apply]
  exact hourKey_div p.1

theorem gkeys_month_eq (s : Series) :
    gkeys (fun dk => dk / 32) (hspDay s) = firstDedup (s.map (fun p => monthKey p.1)) := by
  have h1 : (hspDay s).map (fun p => p.1 / 32)
      = (gkeys (fun hk => hk / 24) (ghiHour s)).map (fun k => k / 32) := by
    rw [← hspDay_keys, List.map_map]
    rfl
  rw [gkeys, h1, gkeys_day_eq, firstDedup_map_firstDedup, List.map_map]
  congr 1
  refine List.map_congr_left (fun p _ => ?_)
  simp only [Function.comp_apply]
  exact dayKey_div p.1

theorem monthCols_eq (w : Weather) :
    monthCols w = firstDedup (w.map (fun p => monthKey p.1)) := by
  rw [monthCols, firstDedup_map_firstDedup (fun dk => dk / 32), List.map_map,
    firstDedup_map_firstDedup, List.map_map]
  congr 1
  refine List.map_congr_left (fun p _ => ?_)
  simp only [Function.comp_apply]
  rw [hourKey_div, dayKey_div]

theorem gkeys_month_eq_monthCols {w : Weather} {s : Series}
    (hs : s.map (fun p => p.1) = w.map (fun p => p.1)) :
    gkeys (fun dk => dk / 32) (hspDay s) = monthCols w := by
  rw [gkeys_month_eq, monthCols_eq, map_key_eq hs]

theorem daysOfMonth_eq (s : Series) (m : Nat) :
    daysOfMonth s m
      = (gkeys (fun hk => hk / 24) (ghiHour s)).filter (fun d => d / 32 = m) := by
  rw [daysOfMonth, gkeys_day_eq, firstDedup_filter]
  congr 1
  rw [List.filter_map]
  congr 1
  refine List.filter_congr (fun p _ => ?_)
  simp only [Function.comp_apply, dayKey_div]

theorem hoursOfDay_eq (s : Series) (d : Nat) :
    hoursOfDay s d = (gkeys hourKey s).filter (fun h => h / 24 = d) := by
  rw [hoursOfDay, gkeys, firstDedup_filter]
  congr 1
  rw [List.filter_map]
  congr 1
  refine List.filter_congr (fun p _ => ?_)
  simp only [Function.comp_apply, hourKey_div]

theorem gvals_day_eq (s : Series) (d : Nat) :
    gvals (fun hk => hk / 24) (ghiHour s) d
      = ((gkeys hourKey s).filter (fun h => h / 24 = d)).map
          (fun h => lmean (gvals hourKey s h)) := by
  rw [gvals, ghiHour, regroupMean, List.filter_map, List.map_map]
  rfl

theorem gvals_month_vals_eq (s : Series) (m : Nat) :
    gvals (fun dk => dk / 32) (hspDay s) m = (daysOfMonth s m).map (dayHSPSpec s) := by
  rw [gvals, hspDay_eq_map, List.filter_map, List.map_map, daysOfMonth_eq]
  refine List.map_congr_left (fun d _ => ?_)
  simp only [Function.comp_apply]
  rw [dayHSPSpec, hoursOfDay_eq, gvals_day_eq]
  rfl

/-- Bridge: for a POA series on the weather index, the code's monthly HSP
series equals the month columns paired with the spec-side cell formula. -/
theorem hspMonth_eq_spec {w : Weather} {s : Series}
    (hs : s.map (fun p => p.1) = w.map (fun p => p.1)) :
    hspMonth s = (monthCols w).map (fun m => (m, cellSpec s m)) := by
  rw [hspMonth, regroupMean, List.map_map, gkeys_month_eq_monthCols hs]
  refine List.map_congr_left (fun m _ => ?_)
  simp only [Function.comp_apply]
  rw [cellSpec, ← gvals_month_vals_eq]

/-! ### Lemmas: Python dict building -/

theorem dictUpsert_mem_self {α : Type} (f : ℚ → α) :
    ∀ (d : List (ℚ × α)) (t : ℚ), (∀ p ∈ d, p.2 = f p.1) → t ∈ d.map (fun p => p.1) →
      dictUpsert d t (f t) = d
  | [], t, _, hmem => by simp at hmem
  | (k, v) :: d, t, hcons, hmem => by
      by_cases hk : k = t
      · rw [dictUpsert, if_pos hk]
        have hv : v = f k := hcons (k, v) (List.mem_cons_self _ _)
        subst hk
        rw [hv]
      · rw [dictUpsert, if_neg hk]
        have hmem' : t ∈ d.map (fun p => p.1) := by
          rcases List.mem_map.mp hmem with ⟨p, hp, hpt⟩
          rcases List.mem_cons.mp hp with rfl | hp'
          · exact absurd hpt hk
          · exact List.mem_map.mpr ⟨p, hp', hpt⟩
        rw [dictUpsert_mem_self f d t (fun p hp => hcons p (List.mem_cons_of_mem _ hp)) hmem']

theorem dictUpsert_not_mem {α : Type} :
    ∀ (d : List (ℚ × α)) (t : ℚ) (v : α), t ∉ d.map (fun p => p.1) →
      dictUpsert d t v = d ++ [(t, v)]
  | [], _, _, _ => rfl
  | (k, w) :: d, t, v, hmem => by
      simp only [List.map_cons, List.mem_cons, not_or] at hmem
      rw [dictUpsert, if_neg (fun e => hmem.1 e.symm), dictUpsert_not_mem d t v hmem.2]
      rfl

theorem dict_foldl_eq {α : Type} (f : ℚ → α) :
    ∀ (ts : List ℚ) (d : List (ℚ × α)), (∀ p ∈ d, p.2 = f p.1) →
      ts.foldl (fun acc t => dictUpsert acc t (f t)) d
        = d ++ (firstDedupAux (d.map (fun p => p.1)) ts).map (fun t => (t, f t)) := by
  intro ts
  induction ts with
  | nil =>
      intro d _
      simp [firstDedupAux]
  | cons t ts ih =>
      intro d hcons
      by_cases hmem : t ∈ d.map (fun p => p.1)
      · rw [List.foldl_cons, dictUpsert_mem_self f d t hcons hmem, ih d hcons,
          firstDedupAux, if_pos hmem]
      · rw [List.foldl_cons, dictUpsert_not_mem d t (f t) hmem]
        rw [ih (d ++ [(t, f t)]) ?_]
        · have hseen : firstDedupAux ((d ++ [(t, f t)]).map (fun p => p.1)) ts
              = firstDedupAux (t :: d.map (fun p => p.1)) ts := by
            refine firstDedupAux_congr ts (fun x => ?_)
            simp only [List.map_append, List.map_cons, List.map_nil, List.mem_append,
              List.mem_cons, List.not_mem_nil, or_false]
            tauto
          rw [firstDedupAux, if_neg hmem, List.append_assoc, hseen]
          simp
        · intro p hp
          rcases List.mem_append.mp hp with hp' | hp'
          · exact hcons p hp'
          · rw [List.mem_singleton.mp hp']

theorem FQ.div_fin_of_ne {a b : ℚ} (hb : b ≠ 0) :
    FQ.div (FQ.fin a) (FQ.fin b) = FQ.fin (a / b) := by
  simp [FQ.div, hb]

theorem FQ.mul_fin_fin (a b : ℚ) : FQ.mul (FQ.fin a) (FQ.fin b) = FQ.fin (a * b) := rfl

theorem FQ.roundI_fin (a : ℚ) : FQ.roundI (FQ.fin a) = FQ.fin ((roundHE a : ℤ) : ℚ) := rfl

theorem FQ.roundTwo_fin (a : ℚ) : FQ.roundTwo (FQ.fin a) = FQ.fin (round2 a) := rfl

/-! ### Claim theorems -/

/-- C5: for every `ac_power` series the annual energy `modules` returns (the
sum of all hourly-mean resampled values) equals the sum of the per-month
energies it returns: regrouping hourly means by calendar month conserves
total energy, exactly in ℚ and hence within floating tolerance. -/
theorem energy_conservation (ac_power : Series) (goal_year : ℚ) :
    (modules ac_power goal_year).energy_year
      = ((modules ac_power goal_year).energy_monthly.map (fun p => p.2)).sum := by
  simp only [modules]
  exact (sum_regroupSum _ _).symm

/-- C2 (code behaviour at the failing input): with demand goal 0 and a
nonzero power series, `modules` raises nothing and silently returns
`module_count = 0`, `covered_energy = 0` and `coverage_percent = NaN`
(the numpy result of `0/0`), contradicting the spec's requirement of an
explicit degenerate-demand error. -/
theorem modules_zero_goal_nan :
    (modules [(ts0, 1000000)] 0).percen = FQ.nan ∧
    (modules [(ts0, 1000000)] 0).num_pv = FQ.fin 0 ∧
    (modules [(ts0, 1000000)] 0).pvno_energy_year = FQ.fin 0 := by
  norm_num [modules, acPowerHour, regroupMean, regroupSum, gkeys, gvals, firstDedup,
    firstDedupAux, lmean, FQ.div, FQ.mul, FQ.roundI, FQ.roundTwo, roundHE, round2]

/-- C10: if the annual energy per module is zero (e.g. an all-zero power
series) and the demand goal is nonzero, `modules` divides by that zero
annual energy unguarded: `module_count` is infinite and the covered energy
and coverage percentage are NaN — non-finite values, not an explicit
error. -/
theorem modules_zero_energy_nonfinite (s : Series) (g : ℚ)
    (h0 : (modules s g).energy_year = 0) (hg : g ≠ 0) :
    (modules s g).num_pv.finite = false ∧
    (modules s g).pvno_energy_year = FQ.nan ∧
    (modules s g).percen = FQ.nan := by
  simp only [modules] at h0 ⊢
  rw [h0]
  rcases lt_or_gt_of_ne hg with hlt | hgt
  · simp [FQ.div, FQ.mul, FQ.roundI, FQ.roundTwo, FQ.finite, hg, not_lt_of_gt hlt, hlt]
  · simp [FQ.div, FQ.mul, FQ.roundI, FQ.roundTwo, FQ.finite, hg, hgt]

/-- Witness for C10 at the all-zero series and goal 1200. -/
theorem modules_zero_energy_nonfinite_witness :
    (modules [(ts0, 0)] 1200).num_pv.finite = false ∧
    (modules [(ts0, 0)] 1200).pvno_energy_year = FQ.nan ∧
    (modules [(ts0, 0)] 1200).percen = FQ.nan :=
  modules_zero_energy_nonfinite [(ts0, 0)] 1200
    (by norm_num [modules, acPowerHour, regroupMean, regroupSum, gkeys, gvals,
      firstDedup, firstDedupAux, lmean])
    (by norm_num)

/-- C8: `hsp_calc` is deterministic — two calls on identical inputs (same
POA oracle, weather table, latitude, longitude, tilt and azimuth) return
identical tables; there is no hidden state. -/
theorem hsp_deterministic (getPoa getPoa' : ℚ → ℚ → ℚ → ℚ → TS → WRow → ℚ)
    (w w' : Weather) (lat lon tilt az lat' lon' tilt' az' : ℚ)
    (h1 : getPoa = getPoa') (h2 : w = w') (h3 : lat = lat') (h4 : lon = lon')
    (h5 : tilt = tilt') (h6 : az = az') :
    hsp_calc getPoa w lat lon tilt az = hsp_calc getPoa' w' lat' lon' tilt' az' := by
  subst h1 h2 h3 h4 h5 h6
  rfl

/-- Witness for C8 at concrete inputs. -/
theorem hsp_deterministic_witness :
    hsp_calc (constPoa 500) w0 20 (-103) 19 180
      = hsp_calc (constPoa 500) w0 20 (-103) 19 180 :=
  hsp_deterministic (constPoa 500) (constPoa 500) w0 w0 20 (-103) 19 180 20 (-103) 19 180
    rfl rfl rfl rfl rfl rfl

/-- C1 counterexample: at tilt 15 the candidate list is `[0, 15, 0, 30, 90]`
but the dict keyed by the tilt label collapses the duplicate 0° entry, so the
returned table has four rows, not five. -/
theorem hsp_five_rows_cex :
    (hsp_calc (constPoa 0) w0 20 (-103) 15 180).rows.map (fun r => r.1) = [0, 15, 30, 90] ∧
    (hsp_calc (constPoa 0) w0 20 (-103) 15 180).rows.length ≠ 5 := by
  norm_num [hsp_calc, tiltRow, dictUpsert, hspMonth, hspDay, ghiHour, poaSeries, regroupMean,
    regroupSum, gkeys, gvals, firstDedup, firstDedupAux, lmean, constPoa, w0, ts0,
    round2, roundHE, monthCols]

/-- C1 amended: the rows of the HSP table are the candidate tilts
`[0, t, t-15, t+15, 90]` in that order with duplicates collapsed to their
first occurrence (Python dict key semantics); there are five rows exactly
when the five candidates are pairwise distinct. -/
theorem hsp_rows_firstDedup (getPoa : ℚ → ℚ → ℚ → ℚ → TS → WRow → ℚ) (w : Weather)
    (lat lon tilt az : ℚ) :
    (hsp_calc getPoa w lat lon tilt az).rows.map (fun r => r.1)
      = firstDedup [0, tilt, tilt - 15, tilt + 15, 90] := by
  simp only [hsp_calc]
  rw [dict_foldl_eq (tiltRow getPoa w lat lon az) _ [] (by simp)]
  simp only [firstDedup, List.map_map, List.nil_append]
  exact (List.map_congr_left (fun x _ => rfl)).trans (List.map_id _)

/-- C4: `modules` computes the module count as the half-even nearest-integer
rounding of `goal_year / energy_year` — an integer within 1/2 of the true
ratio, hence nearest-integer and not a ceiling — and on Scenario B (annual
energy per module 300.7 kWh, goal 1200 kWh/yr) it returns `module_count 4`,
`covered_energy 1202.8` and coverage ≈ 100.23 %. -/
theorem module_count_nearest (s : Series) (g : ℚ)
    (hE : (modules s g).energy_year ≠ 0) :
    (∃ z : ℤ, (modules s g).num_pv = FQ.fin (z : ℚ)
        ∧ |(z : ℚ) - g / (modules s g).energy_year| ≤ 1/2) ∧
    (modules [(ts0, 300700)] 1200).num_pv = FQ.fin 4 ∧
    (modules [(ts0, 300700)] 1200).pvno_energy_year = FQ.fin (6014/5) ∧
    (modules [(ts0, 300700)] 1200).percen = FQ.fin (3007/30) ∧
    |(3007/30 : ℚ) - 10023/100| < 1/100 := by
  refine ⟨?_, ?_, ?_, ?_, ?_⟩
  · refine ⟨roundHE (g / (modules s g).energy_year), ?_, ?_⟩
    · simp only [modules] at hE ⊢
      rw [FQ.div_fin_of_ne hE, FQ.roundI_fin]
    · exact abs_roundHE_sub_le _
  · norm_num [modules, acPowerHour, regroupMean, regroupSum, gkeys, gvals, firstDedup,
      firstDedupAux, lmean, FQ.div, FQ.mul, FQ.roundI, FQ.roundTwo, roundHE, round2,
      Int.floor_eq_iff]
  · norm_num [modules, acPowerHour, regroupMean, regroupSum, gkeys, gvals, firstDedup,
      firstDedupAux, lmean, FQ.div, FQ.mul, FQ.roundI, FQ.roundTwo, roundHE, round2,
      Int.floor_eq_iff]
  · norm_num [modules, acPowerHour, regroupMean, regroupSum, gkeys, gvals, firstDedup,
      firstDedupAux, lmean, FQ.div, FQ.mul, FQ.roundI, FQ.roundTwo, roundHE, round2,
      Int.floor_eq_iff]
  · rw [abs_lt]
    constructor <;> norm_num

/-- Witness for C4 at the Scenario B series. -/
theorem module_count_nearest_witness :
    ((∃ z : ℤ, (modules [(ts0, 300700)] 1200).num_pv = FQ.fin (z : ℚ)
        ∧ |(z : ℚ) - 1200 / (modules [(ts0, 300700)] 1200).energy_year| ≤ 1/2) ∧
     (modules [(ts0, 300700)] 1200).num_pv = FQ.fin 4 ∧
     (modules [(ts0, 300700)] 1200).pvno_energy_year = FQ.fin (6014/5) ∧
     (modules [(ts0, 300700)] 1200).percen = FQ.fin (3007/30) ∧
     |(3007/30 : ℚ) - 10023/100| < 1/100) :=
  module_count_nearest [(ts0, 300700)] 1200
    (by norm_num [modules, acPowerHour, regroupMean, regroupSum, gkeys, gvals,
      firstDedup, firstDedupAux, lmean])

/-- C3 counterexample: for a series whose annual energy per module is
300.707 kWh and goal 1200 kWh, `covered_energy` rounds to 1202.83 but the
coverage percentage is computed from the unrounded product
`num_pv * energy_year = 1202.828`, so it differs from
`covered_energy / demand_goal * 100`: the claim's second equation fails. -/
theorem sizing_percen_cex :
    (modules [(ts0, 300707)] 1200).pvno_energy_year = FQ.fin (120283/100) ∧
    (modules [(ts0, 300707)] 1200).percen = FQ.fin (300707/3000) ∧
    (modules [(ts0, 300707)] 1200).percen
      ≠ FQ.mul (FQ.div (modules [(ts0, 300707)] 1200).pvno_energy_year (FQ.fin 1200))
          (FQ.fin 100) := by
  norm_num [modules, acPowerHour, regroupMean, regroupSum, gkeys, gvals, firstDedup,
    firstDedupAux, lmean, FQ.div, FQ.mul, FQ.roundI, FQ.roundTwo, roundHE, round2,
    Int.floor_eq_iff]

/-- C3 amended: for nonzero annual energy and nonzero goal, `covered_energy`
is the product of the module count and the annual energy rounded to 2
decimals, and the coverage percentage is the UNROUNDED product divided by
the goal times 100 (the source uses `num_pv*energy_year`, not the rounded
`pvno_energy_year`, at pv_calc.py line 177). -/
theorem sizing_coherence_amended (s : Series) (g : ℚ)
    (hE : (modules s g).energy_year ≠ 0) (hg : g ≠ 0) :
    ∃ z : ℤ, (modules s g).num_pv = FQ.fin (z : ℚ) ∧
      (modules s g).pvno_energy_year
        = FQ.fin (round2 ((z : ℚ) * (modules s g).energy_year)) ∧
      (modules s g).percen
        = FQ.fin ((z : ℚ) * (modules s g).energy_year / g * 100) := by
  simp only [modules] at hE ⊢
  refine ⟨roundHE (g / ((acPowerHour s).map (fun p => p.2)).sum), ?_, ?_, ?_⟩
  · rw [FQ.div_fin_of_ne hE, FQ.roundI_fin]
  · rw [FQ.div_fin_of_ne hE, FQ.roundI_fin, FQ.mul_fin_fin, FQ.roundTwo_fin]
  · rw [FQ.div_fin_of_ne hE, FQ.roundI_fin, FQ.mul_fin_fin, FQ.div_fin_of_ne hg,
      FQ.mul_fin_fin]

theorem map_fst_zip_fst {β γ : Type} (l1 : List (TS × β)) (l2 : List γ)
    (h : l1.length ≤ l2.length) :
    (l1.zip l2).map (fun q => q.1.1) = l1.map (fun p => p.1) := by
  induction l1 generalizing l2 with
  | nil => simp
  | cons a l ih =>
      cases l2 with
      | nil => simp at h
      | cons b l2 =>
          simp only [List.zip_cons_cons, List.map_cons]
          rw [ih l2 (by simpa using h)]

/-- C9: `power_calc` returns `ac_power` equal to the DC power series scaled
pointwise by the scalar inverter efficiency (no clipping or curtailment),
and a combined table whose columns are exactly `poa_global`, `poa_direct`,
`poa_diffuse`, `ac_power` and whose index is the irradiance input's
timestamp index (also the index of the returned `ac_power` series when the
weather and irradiance tables are index-aligned). -/
theorem power_calc_shape {TP : Type} (sapmCell : TP → ℚ → ℚ → ℚ → ℚ)
    (pvwattsDc : ℚ → ℚ → ℚ → ℚ → ℚ) (df : Weather) (irr : List (TS × IrrRow))
    (assembly : TP) (pdc0 gamma_pdc inv_eff : ℚ)
    (halign : df.map (fun p => p.1) = irr.map (fun p => p.1)) :
    (power_calc sapmCell pvwattsDc df irr assembly pdc0 gamma_pdc inv_eff).1
      = (dcSeries sapmCell pvwattsDc df irr assembly pdc0 gamma_pdc).map
          (fun p => (p.1, p.2 * inv_eff)) ∧
    (power_calc sapmCell pvwattsDc df irr assembly pdc0 gamma_pdc inv_eff).2.index
      = irr.map (fun p => p.1) ∧
    (power_calc sapmCell pvwattsDc df irr assembly pdc0 gamma_pdc inv_eff).2.cols.map
        (fun c => c.1) = ["poa_global", "poa_direct", "poa_diffuse", "ac_power"] ∧
    ((power_calc sapmCell pvwattsDc df irr assembly pdc0 gamma_pdc inv_eff).1).map
        (fun p => p.1) = irr.map (fun p => p.1) := by
  refine ⟨rfl, rfl, rfl, ?_⟩
  have hlen : irr.length ≤ df.length := by
    have hh := congrArg List.length halign
    simp only [List.length_map] at hh
    omega
  simp only [power_calc, dcSeries, List.map_map, Function.comp_def]
  exact map_fst_zip_fst irr df hlen

/-- Witness for C9 at a concrete aligned weather/irradiance pair. -/
theorem power_calc_shape_witness :
    (power_calc sapm0 pvw0 w0 irr0 () 550 (-1/250) (49/50)).1
      = (dcSeries sapm0 pvw0 w0 irr0 () 550 (-1/250)).map
          (fun p => (p.1, p.2 * (49/50))) ∧
    (power_calc sapm0 pvw0 w0 irr0 () 550 (-1/250) (49/50)).2.index
      = irr0.map (fun p => p.1) ∧
    (power_calc sapm0 pvw0 w0 irr0 () 550 (-1/250) (49/50)).2.cols.map
        (fun c => c.1) = ["poa_global", "poa_direct", "poa_diffuse", "ac_power"] ∧
    ((power_calc sapm0 pvw0 w0 irr0 () 550 (-1/250) (49/50)).1).map
        (fun p => p.1) = irr0.map (fun p => p.1) :=
  power_calc_shape sapm0 pvw0 w0 irr0 () 550 (-1/250) (49/50) rfl

theorem mem_gvals_mem_values {α κ : Type} [DecidableEq κ] {f : α → κ} {s : List (α × ℚ)}
    {k : κ} {v : ℚ} (h : v ∈ gvals f s k) : ∃ p ∈ s, p.2 = v := by
  rcases List.mem_map.mp h with ⟨p, hp, rfl⟩
  exact ⟨p, (List.mem_filter.mp hp).1, rfl⟩

theorem regroupMean_bounds {α κ : Type} [DecidableEq κ] {f : α → κ} {s : List (α × ℚ)}
    {a b : ℚ} (hab : ∀ p ∈ s, a ≤ p.2 ∧ p.2 ≤ b) :
    ∀ q ∈ regroupMean f s, a ≤ q.2 ∧ q.2 ≤ b := by
  intro q hq
  rcases List.mem_map.mp hq with ⟨k, hk, rfl⟩
  dsimp only
  have hne := gvals_ne_nil hk
  constructor
  · refine le_lmean hne (fun v hv => ?_)
    rcases mem_gvals_mem_values hv with ⟨p, hp, rfl⟩
    exact (hab p hp).1
  · refine lmean_le hne (fun v hv => ?_)
    rcases mem_gvals_mem_values hv with ⟨p, hp, rfl⟩
    exact (hab p hp).2

theorem gvals_hour_day_length_le (s : Series) (d : Nat) :
    (gvals (fun hk => hk / 24) (ghiHour s) d).length ≤ 24 := by
  rw [gvals, ghiHour, regroupMean, List.filter_map, List.length_map, List.length_map]
  refine length_le_of_nodup_div_eq (n := 24) (d := d)
    (List.Nodup.filter _ (nodup_gkeys _ _)) ?_ (by norm_num)
  intro x hx
  have hpf := List.of_mem_filter hx
  simpa using hpf

theorem hspDay_bounds {s : Series} (hb : ∀ p ∈ s, 0 ≤ p.2 ∧ p.2 ≤ 1000) :
    ∀ q ∈ hspDay s, 0 ≤ q.2 ∧ q.2 ≤ 24 := by
  intro q hq
  rw [hspDay] at hq
  rcases List.mem_map.mp hq with ⟨q', hq', rfl⟩
  rw [regroupSum] at hq'
  rcases List.mem_map.mp hq' with ⟨d, _, rfl⟩
  dsimp only
  have hvals : ∀ v ∈ gvals (fun hk => hk / 24) (ghiHour s) d, 0 ≤ v ∧ v ≤ 1000 := by
    intro v hv
    rcases mem_gvals_mem_values hv with ⟨p, hp, rfl⟩
    exact regroupMean_bounds hb p hp
  have hlen := gvals_hour_day_length_le s d
  have hsum_le : (gvals (fun hk => hk / 24) (ghiHour s) d).sum ≤ 24000 := by
    calc (gvals (fun hk => hk / 24) (ghiHour s) d).sum
        ≤ (gvals (fun hk => hk / 24) (ghiHour s) d).length • (1000 : ℚ) :=
          List.sum_le_card_nsmul _ _ (fun v hv => (hvals v hv).2)
      _ = ((gvals (fun hk => hk / 24) (ghiHour s) d).length : ℚ) * 1000 := by
          rw [nsmul_eq_mul]
      _ ≤ 24 * 1000 := by
          have h24 : ((gvals (fun hk => hk / 24) (ghiHour s) d).length : ℚ) ≤ 24 := by
            exact_mod_cast hlen
          nlinarith
      _ = 24000 := by norm_num
  have hsum_ge : 0 ≤ (gvals (fun hk => hk / 24) (ghiHour s) d).sum :=
    List.sum_nonneg (fun v hv => (hvals v hv).1)
  constructor
  · positivity
  · rw [div_le_iff₀ (by norm_num : (0 : ℚ) < 1000)]
    linarith

theorem hspMonth_bounds {s : Series} (hb : ∀ p ∈ s, 0 ≤ p.2 ∧ p.2 ≤ 1000) :
    ∀ q ∈ hspMonth s, 0 ≤ q.2 ∧ q.2 ≤ 24 := by
  intro q hq
  rw [hspMonth] at hq
  rcases List.mem_map.mp hq with ⟨q', hq', rfl⟩
  have hq2 := regroupMean_bounds (hspDay_bounds hb) q' hq'
  dsimp only
  refine ⟨round2_nonneg hq2.1, ?_⟩
  have h24 := round2_le_of_le (n := 24) (by exact_mod_cast hq2.2)
  exact_mod_cast h24

theorem gkeys_ne_nil {α κ : Type} [DecidableEq κ] (f : α → κ) {s : List (α × ℚ)}
    (h : s ≠ []) : gkeys f s ≠ [] := by
  rcases List.exists_mem_of_ne_nil s h with ⟨p, hp⟩
  exact List.ne_nil_of_mem ((mem_gkeys f s _).mpr ⟨p, hp, rfl⟩)

theorem hspMonth_ne_nil {s : Series} (h : s ≠ []) : hspMonth s ≠ [] := by
  rw [hspMonth, regroupMean]
  intro hcon
  rcases List.map_eq_nil_iff.mp (List.map_eq_nil_iff.mp hcon) with hcon2
  refine gkeys_ne_nil _ ?_ hcon2
  rw [hspDay]
  intro hcon3
  rcases List.map_eq_nil_iff.mp hcon3 with hcon4
  rw [regroupSum] at hcon4
  rcases List.map_eq_nil_iff.mp hcon4 with hcon5
  refine gkeys_ne_nil _ ?_ hcon5
  rw [ghiHour, regroupMean]
  intro hcon6
  rcases List.map_eq_nil_iff.mp hcon6 with hcon7
  exact gkeys_ne_nil _ h hcon7

/-- C7 counterexample: a weather row whose POA irradiance is 25000 W/m²
gives a daily HSP of 25 > 24 for the flat-plate 0° tilt, and every cell of
the resulting HSP table is 25: the code does not bound daily HSP by 24 for
arbitrary input tables. -/
theorem hsp_daily_bound_cex :
    (hspDay (poaSeries (constPoa 25000) w0 20 (-103) 0 180)).map (fun p => p.2) = [25] ∧
    ¬ ((25 : ℚ) ≤ 24) ∧
    (hsp_calc (constPoa 25000) w0 20 (-103) 19 180).rows.map (fun r => (r.1, r.2.1)) =
      [(0, [25]), (19, [25]), (4, [25]), (34, [25]), (90, [25])] := by
  refine ⟨?_, by norm_num, ?_⟩
  · norm_num [hspDay, ghiHour, poaSeries, regroupMean, regroupSum, gkeys, gvals,
      firstDedup, firstDedupAux, lmean, constPoa, w0, ts0]
  · norm_num [hsp_calc, tiltRow, dictUpsert, hspMonth, hspDay, ghiHour, poaSeries,
      regroupMean, regroupSum, gkeys, gvals, firstDedup, firstDedupAux, lmean, constPoa,
      w0, ts0, round2, roundHE, monthCols, hourKey, dayKey, monthKey, Int.floor_eq_iff]

/-- C7 amended: when every POA irradiance value the oracle produces lies in
[0, 1000] W/m² (true of physical irradiance at the 1000 W/m² HSP reference)
and the weather table is nonempty, every daily HSP value of every candidate
tilt lies in [0, 24] — at most 24 hourly means per calendar day, each at
most 1000 — and every cell of the HSP table, including the Average column,
lies in [0, 24]. -/
theorem hsp_bounds_amended (getPoa : ℚ → ℚ → ℚ → ℚ → TS → WRow → ℚ) (w : Weather)
    (lat lon tilt az : ℚ)
    (hb : ∀ la lo t a2 ts r, 0 ≤ getPoa la lo t a2 ts r ∧ getPoa la lo t a2 ts r ≤ 1000)
    (hne : w ≠ []) :
    (∀ t : ℚ, ∀ q ∈ hspDay (poaSeries getPoa w lat lon t az), 0 ≤ q.2 ∧ q.2 ≤ 24) ∧
    (∀ r ∈ (hsp_calc getPoa w lat lon tilt az).rows,
      (∀ c ∈ r.2.1, 0 ≤ c ∧ c ≤ 24) ∧ (0 ≤ r.2.2 ∧ r.2.2 ≤ 24)) := by
  have hvals : ∀ t : ℚ, ∀ p ∈ poaSeries getPoa w lat lon t az, 0 ≤ p.2 ∧ p.2 ≤ 1000 := by
    intro t p hp
    rcases List.mem_map.mp hp with ⟨q, _, rfl⟩
    exact hb lat lon t az q.1 q.2
  constructor
  · intro t
    exact hspDay_bounds (hvals t)
  · intro r hr
    simp only [hsp_calc] at hr
    rw [dict_foldl_eq (tiltRow getPoa w lat lon az) _ [] (by simp), List.nil_append,
      List.map_map] at hr
    rcases List.mem_map.mp hr with ⟨t, _, rfl⟩
    simp only [Function.comp_apply]
    have hcells : ∀ c ∈ (tiltRow getPoa w lat lon az t).map (fun p => p.2),
        0 ≤ c ∧ c ≤ 24 := by
      intro c hc
      rcases List.mem_map.mp hc with ⟨q, hq, rfl⟩
      exact hspMonth_bounds (hvals t) q hq
    refine ⟨hcells, ?_⟩
    have hcne : (tiltRow getPoa w lat lon az t).map (fun p => p.2) ≠ [] := by
      intro hcon
      have h2 : tiltRow getPoa w lat lon az t = [] := List.map_eq_nil_iff.mp hcon
      have h3 : poaSeries getPoa w lat lon t az ≠ [] := by
        rw [poaSeries]
        intro hcon2
        exact hne (List.map_eq_nil_iff.mp hcon2)
      exact hspMonth_ne_nil h3 h2
    have hlm1 : 0 ≤ lmean ((tiltRow getPoa w lat lon az t).map (fun p => p.2)) :=
      le_lmean hcne (fun v hv => (hcells v hv).1)
    have hlm2 : lmean ((tiltRow getPoa w lat lon az t).map (fun p => p.2)) ≤ 24 :=
      lmean_le hcne (fun v hv => (hcells v hv).2)
    refine ⟨round2_nonneg hlm1, ?_⟩
    have h24 := round2_le_of_le (n := 24) (by exact_mod_cast hlm2)
    exact_mod_cast h24

/-- Witness for the amended C7 with a constant 500 W/m² oracle. -/
theorem hsp_bounds_amended_witness :
    (∀ t : ℚ, ∀ q ∈ hspDay (poaSeries (constPoa 500) w0 20 (-103) t 180),
        0 ≤ q.2 ∧ q.2 ≤ 24) ∧
    (∀ r ∈ (hsp_calc (constPoa 500) w0 20 (-103) 19 180).rows,
      (∀ c ∈ r.2.1, 0 ≤ c ∧ c ≤ 24) ∧ (0 ≤ r.2.2 ∧ r.2.2 ≤ 24)) :=
  hsp_bounds_amended (constPoa 500) w0 20 (-103) 19 180
    (fun _ _ _ _ _ _ => by norm_num [constPoa]) (by simp [w0])

theorem firstDedup_pairwise_lt {l : List Nat} (h : List.Pairwise (· ≤ ·) l) :
    List.Pairwise (· < ·) (firstDedup l) := by
  have hs : List.Pairwise (· ≤ ·) (firstDedup l) :=
    List.Pairwise.sublist (firstDedup_sublist l) h
  exact List.Sorted.lt_of_le hs (nodup_firstDedup l)

theorem monthKey_mono {a b : TS} (h : tsLe a b) : monthKey a ≤ monthKey b := by
  have h1 : hourKey a ≤ hourKey b := by
    rw [← tsIdx_div a, ← tsIdx_div b]
    exact Nat.div_le_div_right h
  have h2 : dayKey a ≤ dayKey b := by
    rw [← hourKey_div a, ← hourKey_div b]
    exact Nat.div_le_div_right h1
  rw [← dayKey_div a, ← dayKey_div b]
  exact Nat.div_le_div_right h2

theorem monthCols_pairwise_lt {w : Weather}
    (hsort : List.Pairwise tsLe (w.map (fun p => p.1))) :
    List.Pairwise (· < ·) (monthCols w) := by
  rw [monthCols_eq]
  refine firstDedup_pairwise_lt ?_
  rw [List.pairwise_map]
  rw [List.pairwise_map] at hsort
  exact hsort.imp (fun hab => monthKey_mono hab)

theorem mem_monthCols {w : Weather} (m : Nat) :
    m ∈ monthCols w ↔ ∃ p ∈ w, monthKey p.1 = m := by
  rw [monthCols_eq, mem_firstDedup]
  simp [List.mem_map]

/-- C6: for a chronologically sorted weather table, the HSP table's columns
are exactly the months present in the data, strictly chronological, with
`strftime('%B')` month names; each row's cells are, column by column, the
spec formula — hourly means, summed per calendar day and divided by 1000,
averaged per calendar month, rounded to 2 decimals — and the `Average`
entry is the row-wise mean of the (rounded) monthly cells, rounded to 2
decimals; months missing from the data get no column. -/
theorem hsp_table_shape (getPoa : ℚ → ℚ → ℚ → ℚ → TS → WRow → ℚ) (w : Weather)
    (lat lon tilt az : ℚ) (hsort : List.Sorted tsLe (w.map (fun p => p.1))) :
    List.Pairwise (· < ·) (hsp_calc getPoa w lat lon tilt az).cols ∧
    (∀ m, m ∈ (hsp_calc getPoa w lat lon tilt az).cols ↔ ∃ p ∈ w, monthKey p.1 = m) ∧
    (hsp_calc getPoa w lat lon tilt az).colNames
      = (hsp_calc getPoa w lat lon tilt az).cols.map (fun mk => monthName (mk % 13)) ∧
    (hsp_calc getPoa w lat lon tilt az).cols = monthCols w ∧
    (hsp_calc getPoa w lat lon tilt az).rows
      = (firstDedup [0, tilt, tilt - 15, tilt + 15, 90]).map (fun t =>
          (t, ((monthCols w).map (fun m => cellSpec (poaSeries getPoa w lat lon t az) m),
            round2 (lmean ((monthCols w).map
              (fun m => cellSpec (poaSeries getPoa w lat lon t az) m)))))) := by
  refine ⟨monthCols_pairwise_lt hsort, fun m => mem_monthCols m, rfl, rfl, ?_⟩
  simp only [hsp_calc, firstDedup]
  rw [dict_foldl_eq (tiltRow getPoa w lat lon az) _ [] (by simp), List.nil_append,
    List.map_map]
  simp only [List.map_nil]
  refine List.map_congr_left (fun t _ => ?_)
  simp only [Function.comp_apply]
  have hb := hspMonth_eq_spec (w := w) (s := poaSeries getPoa w lat lon t az)
    (poaSeries_map_fst getPoa w lat lon t az)
  rw [tiltRow] at *
  rw [hb, List.map_map]
  rfl

/-- Witness for C6 at a concrete sorted weather table. -/
theorem hsp_table_shape_witness :
    List.Pairwise (· < ·) (hsp_calc (constPoa 500) w0 20 (-103) 19 180).cols ∧
    (∀ m, m ∈ (hsp_calc (constPoa 500) w0 20 (-103) 19 180).cols
        ↔ ∃ p ∈ w0, monthKey p.1 = m) ∧
    (hsp_calc (constPoa 500) w0 20 (-103) 19 180).colNames
      = (hsp_calc (constPoa 500) w0 20 (-103) 19 180).cols.map
          (fun mk => monthName (mk % 13)) ∧
    (hsp_calc (constPoa 500) w0 20 (-103) 19 180).cols = monthCols w0 ∧
    (hsp_calc (constPoa 500) w0 20 (-103) 19 180).rows
      = (firstDedup [0, 19, 19 - 15, 19 + 15, 90]).map (fun t =>
          (t, ((monthCols w0).map
                (fun m => cellSpec (poaSeries (constPoa 500) w0 20 (-103) t 180) m),
            round2 (lmean ((monthCols w0).map
              (fun m => cellSpec (poaSeries (constPoa 500) w0 20 (-103) t 180) m)))))) :=
  hsp_table_shape (constPoa 500) w0 20 (-103) 19 180
    (by simp [w0, List.Sorted])

/-- Witness for the amended C3 at a concrete series and goal. -/
theorem sizing_coherence_amended_witness :
    ∃ z : ℤ, (modules [(ts0, 300707)] 1200).num_pv = FQ.fin (z : ℚ) ∧
      (modules [(ts0, 300707)] 1200).pvno_energy_year
        = FQ.fin (round2 ((z : ℚ) * (modules [(ts0, 300707)] 1200).energy_year)) ∧
      (modules [(ts0, 300707)] 1200).percen
        = FQ.fin ((z : ℚ) * (modules [(ts0, 300707)] 1200).energy_year / 1200 * 100) :=
  sizing_coherence_amended [(ts0, 300707)] 1200
    (by norm_num [modules, acPowerHour, regroupMean, regroupSum, gkeys, gvals,
      firstDedup, firstDedupAux, lmean])
    (by norm_num)

end Esolmet
